import Mathlib

/-!
Shallow embedding of the `PyTorchModel` adapter from `lume_model/pytorch/__init__.py`,
together with the external variable records it manipulates.

Python machine values are modelled as follows: float scalars are `Rat`; torch
tensors are a `Tensor` record carrying shape, flat data, dtype and the
`requires_grad` flag; Python dicts (which preserve insertion order) are
association lists `List (String × _)`; exceptions are the `Except PyErr` monad.
All pipeline stages of `evaluate` are translated stage by stage from the source.
-/

namespace LumeModel

/-- Python exceptions that the adapter pipeline can raise. -/
inductive PyErr where
  /-- a failed dict lookup (`KeyError`) carrying the missing key -/
  | keyError (key : String)
  /-- any other runtime failure (reshape mismatch, `.item()` on a
  multi-element tensor, `.numpy()` on a grad-tracking tensor, `torch.stack`
  misuse, indexing errors) -/
  | runtimeError (msg : String)
deriving DecidableEq, Repr

/-- torch dtypes that appear in the adapter: the model is cast to double at
load time and scalar inputs are coerced to double. -/
inductive Dtype where
  | float32
  | float64
deriving DecidableEq, Repr

/-- A torch tensor: shape, flat row-major data, dtype, and the
`requires_grad` flag. -/
structure Tensor where
  shape : List Nat
  data : List Rat
  dtype : Dtype
  requiresGrad : Bool
deriving DecidableEq, Repr

/-- `Tensor.item()`: extract the scalar of a one-element tensor, raising
otherwise (as torch does). -/
def Tensor.item (t : Tensor) : Except PyErr Rat :=
  match t.data with
  | [x] => .ok x
  | _ => .error (.runtimeError "item: not a one-element tensor")

/-- `Tensor.reshape(shape)`: succeeds exactly when the element count matches
the product of the requested shape, keeping the flat data; raises otherwise
(torch never truncates or pads). -/
def Tensor.reshape (t : Tensor) (s : List Nat) : Except PyErr Tensor :=
  if s.prod = t.data.length then
    .ok { t with shape := s }
  else
    .error (.runtimeError "reshape: shape is invalid for input size")

/-- `Tensor.numpy()`: converts to a dense array; torch raises when the tensor
still requires grad. The resulting ndarray is modelled as shape plus data. -/
def Tensor.numpy (t : Tensor) : Except PyErr (List Nat × List Rat) :=
  if t.requiresGrad then
    .error (.runtimeError "numpy: tensor requires grad")
  else
    .ok (t.shape, t.data)

/-- `t[i]`: integer indexing along the leading dimension, yielding the
sub-tensor; raises on a 0-dim tensor or an out-of-range index. -/
def Tensor.index (t : Tensor) (i : Nat) : Except PyErr Tensor :=
  match t.shape with
  | [] => .error (.runtimeError "index: too many indices for 0-dim tensor")
  | d :: rest =>
    if i < d then
      .ok ⟨rest, (t.data.drop (i * rest.prod)).take rest.prod, t.dtype, t.requiresGrad⟩
    else
      .error (.runtimeError "index: out of range")

/-- `torch.stack(ts)`: stacks same-shaped tensors along a new leading
dimension; raises on an empty list or mismatched shapes. The result requires
grad when any input does. -/
def torchStack (ts : List Tensor) : Except PyErr Tensor :=
  match ts with
  | [] => .error (.runtimeError "stack: expects a non-empty list")
  | t :: rest =>
    if rest.all (fun u => u.shape = t.shape) then
      .ok ⟨ts.length :: t.shape, (ts.map Tensor.data).flatten, t.dtype,
           ts.any Tensor.requiresGrad⟩
    else
      .error (.runtimeError "stack: expects each tensor to be equal size")

/-- A value stored in a variable record: a plain Python float or a torch
tensor. -/
inductive VarValue where
  | scalar (x : Rat)
  | tensor (t : Tensor)
deriving DecidableEq, Repr

/-- Modelled from the spec: `lume_model.variables.InputVariable`
(`variables.py` is not under `src/`): a named entity holding a current value
and a default value ("InputVariable: name (unique key), current value (scalar
or tensor-like), default value"). -/
structure InputVariable where
  name : String
  value : VarValue
  default : Rat
deriving DecidableEq, Repr

/-- The current value of an output variable: a scalar (for `scalar` kind) or
a dense numpy array (for `image` kind), modelled as shape plus flat data. -/
inductive OutValue where
  | scalar (x : Rat)
  | array (shape : List Nat) (data : List Rat)
deriving DecidableEq, Repr

/-- Modelled from the spec: `lume_model.variables.OutputVariable`
(`variables.py` is not under `src/`): "name, current value, variable kind
(`scalar` | `image`), and for `image` kind: a shape, plus up to four optional
back-references (by name) to other output variables supplying
`x_min`/`x_max`/`y_min`/`y_max`". Bounds are optional values, set once
assigned. -/
structure OutputVariable where
  name : String
  variable_type : String
  value : OutValue
  shape : List Nat
  x_min_variable : Option String
  x_max_variable : Option String
  y_min_variable : Option String
  y_max_variable : Option String
  x_min : Option Rat
  x_max : Option Rat
  y_min : Option Rat
  y_max : Option Rat
deriving DecidableEq, Repr

/-- A value the caller may supply for an input name (the
`Union[InputVariable, float, torch.Tensor]` of `evaluate`'s signature). -/
inductive InputValue where
  | variable (v : InputVariable)
  | float (x : Rat)
  | tensor (t : Tensor)
deriving DecidableEq, Repr

/-- A reversible transform from the transform chains: an opaque forward map
and an opaque `untransform` inverse, both tensor-to-tensor. -/
structure Transformer where
  forward : Tensor → Tensor
  untransform : Tensor → Tensor

/-- Association-list lookup, the model of a Python dict read returning
`None`-like absence. -/
def alist.lookup {α : Type} (l : List (String × α)) (k : String) : Option α :=
  match l with
  | [] => none
  | (k', v) :: rest => if k' = k then some v else alist.lookup rest k

/-- A Python dict subscript read: raises `KeyError` when absent. -/
def alist.getE {α : Type} (l : List (String × α)) (k : String) : Except PyErr α :=
  match alist.lookup l k with
  | some v => .ok v
  | none => .error (.keyError k)

/-- `d[k].attr = ...` on a Python dict: raises `KeyError` when the key is
absent, otherwise mutates that entry in place. -/
def alist.setE {α : Type} (l : List (String × α)) (k : String) (f : α → α) :
    Except PyErr (List (String × α)) :=
  match alist.lookup l k with
  | some _ => .ok (l.map (fun p => if p.1 = k then (p.1, f p.2) else p))
  | none => .error (.keyError k)

/-- Monadic map over `Except PyErr`, written with structural recursion: the
semantics of a Python `for` loop that builds a list and lets exceptions
escape at the first failing element. -/
def mapME {α β : Type} (f : α → Except PyErr β) : List α → Except PyErr (List β)
  | [] => .ok []
  | a :: l => do
    let b ← f a
    let bs ← mapME f l
    .ok (b :: bs)

/-- The `PyTorchModel` adapter state: variable registries (ordered dicts),
transform chains, output-format selector, optional orderings and the opaque
loaded model (already cast to double and put in eval mode at construction). -/
structure PyTorchModel where
  input_variables : List (String × InputVariable)
  output_variables : List (String × OutputVariable)
  input_transformers : List Transformer
  output_transformers : List Transformer
  output_format : List (String × String)
  feature_order : Option (List String)
  output_order : Option (List String)
  model : Tensor → Tensor

/-- The value-resolution step of `_prepare_inputs` (lines 142-154): for one
registry entry, take the caller's value (`.value` of a rich variable, a float
directly, or `.item()` of a tensor-like); on `KeyError` fall back to the
variable's stored default. -/
def resolveVar (inputs : List (String × InputValue)) (varName : String)
    (var : InputVariable) : Except PyErr InputVariable :=
  match alist.lookup inputs varName with
  | some (.variable iv) => .ok { var with value := iv.value }
  | some (.float x) => .ok { var with value := .scalar x }
  | some (.tensor t) => do
      let x ← t.item
      .ok { var with value := .scalar x }
  | none => .ok { var with value := .scalar var.default }

/-- The coercion step of `_prepare_inputs` (lines 156-167): a non-tensor
value becomes `torch.tensor(v, dtype=torch.double, requires_grad=True)`
(a 0-dim double tensor tracking gradients); a tensor passes through
unchanged. -/
def coerceToTensor : VarValue → Tensor
  | .scalar x => ⟨[], [x], .float64, true⟩
  | .tensor t => t

/-- `_prepare_inputs`: updates every input registry entry from the caller's
map (defaults for missing names), then builds the name-to-tensor dict,
returning the mutated adapter alongside it. -/
def _prepare_inputs (m : PyTorchModel)
    (inputs : List (String × InputValue)) :
    Except PyErr (PyTorchModel × List (String × Tensor)) := do
  let reg ← mapME (fun p => do
      let var ← resolveVar inputs p.1 p.2
      pure (p.1, var)) m.input_variables
  let vals := reg.map (fun p => (p.1, coerceToTensor p.2.value))
  .ok ({ m with input_variables := reg }, vals)

/-- The feature ordering used by `_arrange_inputs`: the configured
`feature_order` or, when `None`, the input registry's insertion order. -/
def featureOrder (m : PyTorchModel) : List String :=
  match m.feature_order with
  | some o => o
  | none => m.input_variables.map Prod.fst

/-- `_arrange_inputs`: index the normalized mapping by each name of the
feature order (raising `KeyError` on a missing name) and stack the result
into one ordered tensor. -/
def _arrange_inputs (m : PyTorchModel)
    (input_variables : List (String × Tensor)) : Except PyErr Tensor := do
  let features ← mapME (fun n => alist.getE input_variables n) (featureOrder m)
  torchStack features

/-- `_transform_inputs`: apply each input transform in configured order. -/
def _transform_inputs (m : PyTorchModel) (input_values : Tensor) : Tensor :=
  m.input_transformers.foldl (fun acc tr => tr.forward acc) input_values

/-- `_transform_outputs`: apply each output transform's `untransform`,
iterating over the chain in its configured (forward) order. -/
def _transform_outputs (m : PyTorchModel) (model_output : Tensor) : Tensor :=
  m.output_transformers.foldl (fun acc tr => tr.untransform acc) model_output

/-- The output ordering used by `_parse_outputs`: the configured
`output_order` or, when `None`, the output registry's insertion order. -/
def outputOrder (m : PyTorchModel) : List String :=
  match m.output_order with
  | some o => o
  | none => m.output_variables.map Prod.fst

/-- `_parse_outputs`: split the output vector into a name-to-tensor dict,
entry `idx` of the vector going to name `idx` of the output order. -/
def _parse_outputs (m : PyTorchModel) (model_output : Tensor) :
    Except PyErr (List (String × Tensor)) :=
  mapME (fun p => do
     let t ← model_output.index p.1
     pure (p.2, t)) (outputOrder m).enum

/-- Python truthiness of an `Optional[str]` field: `None` and the empty
string are falsy. -/
def truthy : Option String → Bool
  | none => false
  | some s => s ≠ ""

/-- One conditional bound update of the image branch of `_prepare_outputs`
(e.g. lines 277-280 for `x_min`): when the back-reference field of the
registry entry `name` is truthy, look the referenced name up in
`predicted_output`, take its `.item()` and store it through `set` on that
entry. -/
def boundUpdate (parsed : List (String × Tensor))
    (reg : List (String × OutputVariable)) (name : String)
    (get : OutputVariable → Option String)
    (set : OutputVariable → Rat → OutputVariable) :
    Except PyErr (List (String × OutputVariable)) := do
  let v ← alist.getE reg name
  match get v with
  | some s =>
    if s = "" then .ok reg
    else do
      let t ← alist.getE parsed s
      let x ← t.item
      alist.setE reg name (fun u => set u x)
  | none => .ok reg

/-- One iteration of the `_prepare_outputs` loop body (lines 263-295) for the
iterated variable object `var0`: scalar kind stores
`predicted_output[name].item()`; image kind stores
`predicted_output[name].reshape(shape).numpy()` and then performs the four
conditional bound updates; any other kind is untouched. All registry writes
go through a dict subscript of `var0.name`, as in the source. -/
def processVar (parsed : List (String × Tensor))
    (reg : List (String × OutputVariable)) (var0 : OutputVariable) :
    Except PyErr (List (String × OutputVariable)) :=
  if var0.variable_type = "scalar" then do
    let t ← alist.getE parsed var0.name
    let x ← t.item
    alist.setE reg var0.name (fun u => { u with value := .scalar x })
  else if var0.variable_type = "image" then do
    let t ← alist.getE parsed var0.name
    let t2 ← t.reshape var0.shape
    let arr ← t2.numpy
    let reg1 ← alist.setE reg var0.name
      (fun u => { u with value := .array arr.1 arr.2 })
    let reg2 ← boundUpdate parsed reg1 var0.name OutputVariable.x_min_variable
      (fun u x => { u with x_min := some x })
    let reg3 ← boundUpdate parsed reg2 var0.name OutputVariable.x_max_variable
      (fun u x => { u with x_max := some x })
    let reg4 ← boundUpdate parsed reg3 var0.name OutputVariable.y_min_variable
      (fun u x => { u with y_min := some x })
    boundUpdate parsed reg4 var0.name OutputVariable.y_max_variable
      (fun u x => { u with y_max := some x })
  else .ok reg

/-- The `for variable in self.output_variables.values()` loop of
`_prepare_outputs`: the dict's structure never changes during the loop (only
entry objects are mutated in place), so iteration walks positions `0,1,...`
of the current registry; `fuel` counts the remaining iterations, starting at
the registry's length. -/
def prepLoop (parsed : List (String × Tensor)) :
    Nat → Nat → List (String × OutputVariable) →
    Except PyErr (List (String × OutputVariable))
  | 0, _, reg => .ok reg
  | fuel + 1, i, reg =>
    match reg[i]? with
    | none => .ok reg
    | some p => do
      let reg' ← processVar parsed reg p.2
      prepLoop parsed fuel (i + 1) reg'

/-- The effect of one conditional bound update on the variable record it
targets, stated entrywise: `boundUpdate` on a well-keyed registry acts as
`boundOne` on the addressed entry (proved below). -/
def boundOne (parsed : List (String × Tensor)) (v : OutputVariable)
    (get : OutputVariable → Option String)
    (set : OutputVariable → Rat → OutputVariable) :
    Except PyErr OutputVariable :=
  match get v with
  | some s =>
    if s = "" then .ok v
    else do
      let t ← alist.getE parsed s
      let x ← t.item
      .ok (set v x)
  | none => .ok v

/-- The effect of one `_prepare_outputs` loop iteration on the variable
record it targets, stated entrywise: `processVar` on a well-keyed registry
acts as `processOne` on the addressed entry (proved below). -/
def processOne (parsed : List (String × Tensor)) (v : OutputVariable) :
    Except PyErr OutputVariable :=
  if v.variable_type = "scalar" then do
    let t ← alist.getE parsed v.name
    let x ← t.item
    .ok { v with value := .scalar x }
  else if v.variable_type = "image" then do
    let t ← alist.getE parsed v.name
    let t2 ← t.reshape v.shape
    let arr ← t2.numpy
    let v2 ← boundOne parsed { v with value := OutValue.array arr.1 arr.2 }
      OutputVariable.x_min_variable (fun u x => { u with x_min := some x })
    let v3 ← boundOne parsed v2 OutputVariable.x_max_variable
      (fun u x => { u with x_max := some x })
    let v4 ← boundOne parsed v3 OutputVariable.y_min_variable
      (fun u x => { u with y_min := some x })
    boundOne parsed v4 OutputVariable.y_max_variable
      (fun u x => { u with y_max := some x })
  else .ok v

/-- The shape of `evaluate`'s return value, per the output-format dispatch:
the raw parsed tensor mapping, the output-variable registry, or the plain
name-to-current-value mapping. -/
inductive EvalOutput where
  | tensors (out : List (String × Tensor))
  | variables (reg : List (String × OutputVariable))
  | values (out : List (String × OutValue))
deriving DecidableEq, Repr

/-- `_prepare_outputs`: run the variable-update loop over the registry, then
dispatch on `self._output_format.get("type")`: `"tensor"` returns the parsed
mapping, `"variable"` the updated registry, anything else (any other or a
missing key) the plain name-to-value mapping. -/
def _prepare_outputs (m : PyTorchModel)
    (predicted_output : List (String × Tensor)) :
    Except PyErr (PyTorchModel × EvalOutput) := do
  let reg ← prepLoop predicted_output m.output_variables.length 0
    m.output_variables
  let m' := { m with output_variables := reg }
  if alist.lookup m.output_format "type" = some "tensor" then
    .ok (m', .tensors predicted_output)
  else if alist.lookup m.output_format "type" = some "variable" then
    .ok (m', .variables reg)
  else
    .ok (m', .values (reg.map (fun p => (p.1, p.2.value))))

/-- `evaluate`: the full pipeline — prepare inputs, arrange, forward
transform, run the model, untransform, parse into names, prepare outputs.
Returns the mutated adapter together with the dispatched output. -/
def evaluate (m : PyTorchModel) (inputs : List (String × InputValue)) :
    Except PyErr (PyTorchModel × EvalOutput) := do
  let r ← _prepare_inputs m inputs
  let m1 := r.1
  let arranged ← _arrange_inputs m1 r.2
  let features := _transform_inputs m1 arranged
  let raw_output := m1.model features
  let transformed_output := _transform_outputs m1 raw_output
  let parsed ← _parse_outputs m1 transformed_output
  _prepare_outputs m1 parsed

/-! ### Small `Except` reduction lemmas -/

theorem except_bind_ok {α β : Type} (a : α) (f : α → Except PyErr β) :
    (Except.ok a >>= f) = f a := rfl

theorem except_bind_error {α β : Type} (e : PyErr) (f : α → Except PyErr β) :
    ((Except.error e : Except PyErr α) >>= f) = .error e := rfl

theorem except_map_ok {α β : Type} (a : α) (f : α → β) :
    (Except.ok a : Except PyErr α).map f = .ok (f a) := rfl

theorem except_map_error {α β : Type} (e : PyErr) (f : α → β) :
    (Except.error e : Except PyErr α).map f = .error e := rfl

theorem except_pure {α : Type} (a : α) : (pure a : Except PyErr α) = .ok a := rfl

theorem except_pure_bind {α β : Type} (a : α) (f : α → Except PyErr β) :
    ((pure a : Except PyErr α) >>= f) = f a := rfl

/-! ### Association-list lemmas -/

theorem alist.lookup_append_of_notin {α : Type} (l1 l2 : List (String × α))
    (k : String) (h : alist.lookup l1 k = none) :
    alist.lookup (l1 ++ l2) k = alist.lookup l2 k := by
  induction l1 with
  | nil => rfl
  | cons p rest ih =>
    obtain ⟨k', v⟩ := p
    simp only [List.cons_append, alist.lookup] at h ⊢
    by_cases hk : k' = k
    · simp [hk] at h
    · simp only [hk, if_false] at h ⊢
      exact ih h

theorem alist.lookup_append_left {α : Type} (l1 l2 : List (String × α))
    (k : String) (a : α) (h : alist.lookup l1 k = some a) :
    alist.lookup (l1 ++ l2) k = some a := by
  induction l1 with
  | nil => simp [alist.lookup] at h
  | cons p rest ih =>
    obtain ⟨k', v⟩ := p
    simp only [List.cons_append, alist.lookup] at h ⊢
    by_cases hk : k' = k
    · simpa [hk] using h
    · simp only [hk, if_false] at h ⊢
      exact ih h

theorem alist.lookup_map {α β : Type} (f : α → β) (l : List (String × α))
    (k : String) :
    alist.lookup (l.map (fun p => (p.1, f p.2))) k =
      (alist.lookup l k).map f := by
  induction l with
  | nil => rfl
  | cons p rest ih =>
    obtain ⟨k', v⟩ := p
    simp only [List.map_cons, alist.lookup]
    by_cases hk : k' = k
    · simp [hk]
    · simpa [hk] using ih

theorem alist.lookup_mem {α : Type} (l : List (String × α)) (k : String)
    (a : α) (h : alist.lookup l k = some a) : (k, a) ∈ l := by
  induction l with
  | nil => simp [alist.lookup] at h
  | cons p rest ih =>
    obtain ⟨k', v⟩ := p
    simp only [alist.lookup] at h
    by_cases hk : k' = k
    · simp only [hk, if_true, Option.some.injEq] at h
      subst hk
      subst h
      exact List.mem_cons_self _ _
    · simp only [hk, if_false] at h
      exact List.mem_cons_of_mem _ (ih h)

theorem alist.lookup_none_of_notin {α : Type} (l : List (String × α))
    (k : String) (h : k ∉ l.map Prod.fst) : alist.lookup l k = none := by
  induction l with
  | nil => rfl
  | cons p rest ih =>
    obtain ⟨k', v⟩ := p
    simp only [List.map_cons, List.mem_cons] at h
    push_neg at h
    simp only [alist.lookup]
    rw [if_neg (fun hh => h.1 hh.symm)]
    exact ih h.2

theorem alist.lookup_of_mem_nodup {α : Type} (l : List (String × α))
    (k : String) (a : α) (hn : (l.map Prod.fst).Nodup) (hmem : (k, a) ∈ l) :
    alist.lookup l k = some a := by
  induction l with
  | nil => simp at hmem
  | cons p rest ih =>
    obtain ⟨k', v⟩ := p
    simp only [List.map_cons, List.nodup_cons] at hn
    rcases List.mem_cons.mp hmem with heq | hmem'
    · obtain ⟨hk, hv⟩ := Prod.ext_iff.mp heq
      subst hk
      simp only [alist.lookup, if_pos rfl]
      exact congrArg some hv.symm
    · simp only [alist.lookup]
      by_cases hk : k' = k
      · exfalso
        apply hn.1
        rw [hk]
        exact List.mem_map.mpr ⟨(k, a), hmem', rfl⟩
      · simp only [hk, if_false]
        exact ih hn.2 hmem'

theorem alist.map_update_of_notin {α : Type} (l : List (String × α))
    (k : String) (f : α → α) (h : k ∉ l.map Prod.fst) :
    l.map (fun p => if p.1 = k then (p.1, f p.2) else p) = l := by
  induction l with
  | nil => rfl
  | cons p rest ih =>
    simp only [List.map_cons, List.mem_cons] at h
    push_neg at h
    simp only [List.map_cons]
    rw [if_neg (fun hh => h.1 hh.symm), ih h.2]

/-! ### `mapME` lemmas -/

theorem mapME_congr {α β : Type} (f g : α → Except PyErr β) (l : List α)
    (h : ∀ a ∈ l, f a = g a) : mapME f l = mapME g l := by
  induction l with
  | nil => rfl
  | cons a rest ih =>
    unfold mapME
    rw [h a (List.mem_cons_self a rest), ih (fun x hx => h x (List.mem_cons_of_mem _ hx))]

theorem mapME_error_of_mem {α β : Type} (f : α → Except PyErr β) (l : List α)
    (a : α) (hmem : a ∈ l) (herr : ∀ b, f a ≠ .ok b) :
    ∃ e, mapME f l = .error e := by
  induction l with
  | nil => simp at hmem
  | cons x rest ih =>
    unfold mapME
    cases hx : f x with
    | error e => exact ⟨e, rfl⟩
    | ok b =>
      rcases List.mem_cons.mp hmem with heq | hmem'
      · subst heq
        exact absurd hx (herr b)
      · rcases ih hmem' with ⟨e, he⟩
        refine ⟨e, ?_⟩
        simp only [hx, he]
        rfl

/-! ### Localizing the `_prepare_outputs` loop: on a registry whose keys are
unique, each iteration only touches the entry it addresses. -/

theorem alist.lookup_localized {α : Type} (pre rest : List (String × α))
    (k : String) (v : α) (hpre : k ∉ pre.map Prod.fst) :
    alist.lookup (pre ++ (k, v) :: rest) k = some v := by
  rw [alist.lookup_append_of_notin _ _ _ (alist.lookup_none_of_notin _ _ hpre)]
  simp [alist.lookup]

theorem alist.getE_localized {α : Type} (pre rest : List (String × α))
    (k : String) (v : α) (hpre : k ∉ pre.map Prod.fst) :
    alist.getE (pre ++ (k, v) :: rest) k = .ok v := by
  unfold alist.getE
  rw [alist.lookup_localized _ _ _ _ hpre]

theorem alist.setE_localized {α : Type} (pre rest : List (String × α))
    (k : String) (hpre : k ∉ pre.map Prod.fst)
    (hrest : k ∉ rest.map Prod.fst) (v : α) (f : α → α) :
    alist.setE (pre ++ (k, v) :: rest) k f = .ok (pre ++ (k, f v) :: rest) := by
  unfold alist.setE
  rw [alist.lookup_localized _ _ _ _ hpre]
  rw [List.map_append, List.map_cons, alist.map_update_of_notin _ _ _ hpre,
    alist.map_update_of_notin _ _ _ hrest]
  simp

theorem alist.getE_ok {α : Type} {l : List (String × α)} {k : String} {a : α}
    (h : alist.getE l k = .ok a) : alist.lookup l k = some a := by
  unfold alist.getE at h
  split at h
  next b heq =>
    injection h with hh
    rw [heq, hh]
  next heq => exact absurd h (by simp)

/-- Full characterization of a successful `boundOne`: either the
back-reference is falsy and the record is untouched, or it names `s`, the
parsed mapping has `s`, and the bound is set to that entry's `.item()`. -/
theorem boundOne_spec (parsed : List (String × Tensor)) (v : OutputVariable)
    (get : OutputVariable → Option String)
    (set : OutputVariable → Rat → OutputVariable) (v' : OutputVariable)
    (h : boundOne parsed v get set = .ok v') :
    (truthy (get v) = false ∧ v' = v) ∨
    (∃ s t x, get v = some s ∧ s ≠ "" ∧ alist.lookup parsed s = some t ∧
      t.item = .ok x ∧ v' = set v x) := by
  unfold boundOne at h
  split at h
  next s hget =>
    by_cases hs : s = ""
    · rw [if_pos hs] at h
      injection h with hh
      exact Or.inl ⟨by simp [truthy, hget, hs], hh.symm⟩
    · rw [if_neg hs] at h
      cases hts : alist.getE parsed s with
      | error e =>
        rw [hts, except_bind_error] at h
        exact absurd h (by simp)
      | ok t =>
        rw [hts, except_bind_ok] at h
        cases hx : t.item with
        | error e =>
          rw [hx, except_bind_error] at h
          exact absurd h (by simp)
        | ok x =>
          rw [hx, except_bind_ok] at h
          injection h with hh
          exact Or.inr ⟨s, t, x, hget, hs, alist.getE_ok hts, hx, hh.symm⟩
  next hget =>
    injection h with hh
    exact Or.inl ⟨by simp [truthy, hget], hh.symm⟩

end LumeModel

namespace LumeModel

theorem boundUpdate_localized (parsed : List (String × Tensor))
    (pre rest : List (String × OutputVariable)) (k : String)
    (hpre : k ∉ pre.map Prod.fst) (hrest : k ∉ rest.map Prod.fst)
    (v : OutputVariable) (get : OutputVariable → Option String)
    (set : OutputVariable → Rat → OutputVariable) :
    boundUpdate parsed (pre ++ (k, v) :: rest) k get set =
      (boundOne parsed v get set).map (fun v' => pre ++ (k, v') :: rest) := by
  unfold boundUpdate boundOne
  rw [alist.getE_localized pre rest k v hpre, except_bind_ok]
  cases hget : get v with
  | none => simp only [hget, except_map_ok]
  | some s =>
    simp only [hget]
    by_cases hs : s = ""
    · rw [if_pos hs, if_pos hs, except_map_ok]
    · rw [if_neg hs, if_neg hs]
      cases hts : alist.getE parsed s with
      | error e => simp only [except_bind_error, except_map_error]
      | ok t =>
        simp only [except_bind_ok]
        cases hx : t.item with
        | error e => simp only [except_bind_error, except_map_error]
        | ok x =>
          simp only [except_bind_ok, except_map_ok]
          exact alist.setE_localized pre rest k hpre hrest v _

end LumeModel

namespace LumeModel

/-- A successful `boundOne` with a field-only setter leaves `name` and
`variable_type` unchanged. -/
theorem boundOne_preserves (parsed : List (String × Tensor))
    (v : OutputVariable) (get : OutputVariable → Option String)
    (set : OutputVariable → Rat → OutputVariable) (v' : OutputVariable)
    (h : boundOne parsed v get set = .ok v')
    (hset : ∀ u x, (set u x).name = u.name ∧
      (set u x).variable_type = u.variable_type) :
    v'.name = v.name ∧ v'.variable_type = v.variable_type := by
  rcases boundOne_spec parsed v get set v' h with ⟨-, rfl⟩ | ⟨s, t, x, -, -, -, -, rfl⟩
  · exact ⟨rfl, rfl⟩
  · exact hset v x

/-- `processOne` never changes the record's `name` or `variable_type`. -/
theorem processOne_preserves (parsed : List (String × Tensor))
    (v v' : OutputVariable) (h : processOne parsed v = .ok v') :
    v'.name = v.name ∧ v'.variable_type = v.variable_type := by
  unfold processOne at h
  by_cases h1 : v.variable_type = "scalar"
  · rw [if_pos h1] at h
    cases hg : alist.getE parsed v.name with
    | error e => rw [hg, except_bind_error] at h; exact absurd h (by simp)
    | ok t =>
      rw [hg] at h
      simp only [except_bind_ok] at h
      cases hx : t.item with
      | error e => rw [hx, except_bind_error] at h; exact absurd h (by simp)
      | ok x =>
        rw [hx] at h
        simp only [except_bind_ok] at h
        injection h with hh
        rw [← hh]
        exact ⟨rfl, rfl⟩
  · rw [if_neg h1] at h
    by_cases h2 : v.variable_type = "image"
    · rw [if_pos h2] at h
      cases hg : alist.getE parsed v.name with
      | error e => rw [hg, except_bind_error] at h; exact absurd h (by simp)
      | ok t =>
        rw [hg] at h
        simp only [except_bind_ok] at h
        cases hr : t.reshape v.shape with
        | error e => rw [hr, except_bind_error] at h; exact absurd h (by simp)
        | ok t2 =>
          rw [hr] at h
          simp only [except_bind_ok] at h
          cases hnp : t2.numpy with
          | error e => rw [hnp, except_bind_error] at h; exact absurd h (by simp)
          | ok arr =>
            rw [hnp] at h
            simp only [except_bind_ok] at h
            cases hb1 : boundOne parsed { v with value := OutValue.array arr.1 arr.2 }
                OutputVariable.x_min_variable (fun u x => { u with x_min := some x }) with
            | error e => rw [hb1, except_bind_error] at h; exact absurd h (by simp)
            | ok v2 =>
              rw [hb1] at h
              simp only [except_bind_ok] at h
              cases hb2 : boundOne parsed v2
                  OutputVariable.x_max_variable (fun u x => { u with x_max := some x }) with
              | error e => rw [hb2, except_bind_error] at h; exact absurd h (by simp)
              | ok v3 =>
                rw [hb2] at h
                simp only [except_bind_ok] at h
                cases hb3 : boundOne parsed v3
                    OutputVariable.y_min_variable (fun u x => { u with y_min := some x }) with
                | error e => rw [hb3, except_bind_error] at h; exact absurd h (by simp)
                | ok v4 =>
                  rw [hb3] at h
                  simp only [except_bind_ok] at h
                  have p1 := boundOne_preserves _ _ _ _ _ hb1 (fun u x => ⟨rfl, rfl⟩)
                  have p2 := boundOne_preserves _ _ _ _ _ hb2 (fun u x => ⟨rfl, rfl⟩)
                  have p3 := boundOne_preserves _ _ _ _ _ hb3 (fun u x => ⟨rfl, rfl⟩)
                  have p4 := boundOne_preserves _ _ _ _ _ h (fun u x => ⟨rfl, rfl⟩)
                  refine ⟨?_, ?_⟩
                  · rw [p4.1, p3.1, p2.1, p1.1]
                  · rw [p4.2, p3.2, p2.2, p1.2]
    · rw [if_neg h2] at h
      injection h with hh
      rw [← hh]
      exact ⟨rfl, rfl⟩

end LumeModel

namespace LumeModel

/-- On a registry with unique keys, one loop iteration of `_prepare_outputs`
only rewrites the entry it addresses, acting on it as `processOne`. -/
theorem processVar_localized (parsed : List (String × Tensor))
    (pre rest : List (String × OutputVariable)) (k : String)
    (v : OutputVariable) (hname : v.name = k)
    (hpre : k ∉ pre.map Prod.fst) (hrest : k ∉ rest.map Prod.fst) :
    processVar parsed (pre ++ (k, v) :: rest) v =
      (processOne parsed v).map (fun v' => pre ++ (k, v') :: rest) := by
  subst hname
  unfold processVar processOne
  by_cases h1 : v.variable_type = "scalar"
  · rw [if_pos h1, if_pos h1]
    cases hg : alist.getE parsed v.name with
    | error e => simp only [except_bind_error, except_map_error]
    | ok t =>
      simp only [except_bind_ok]
      cases hx : t.item with
      | error e => simp only [except_bind_error, except_map_error]
      | ok x =>
        simp only [except_bind_ok, except_map_ok]
        exact alist.setE_localized pre rest v.name hpre hrest v _
  · rw [if_neg h1, if_neg h1]
    by_cases h2 : v.variable_type = "image"
    · rw [if_pos h2, if_pos h2]
      cases hg : alist.getE parsed v.name with
      | error e => simp only [except_bind_error, except_map_error]
      | ok t =>
        simp only [except_bind_ok]
        cases hr : t.reshape v.shape with
        | error e => simp only [except_bind_error, except_map_error]
        | ok t2 =>
          simp only [except_bind_ok]
          cases hnp : t2.numpy with
          | error e => simp only [except_bind_error, except_map_error]
          | ok arr =>
            simp only [except_bind_ok]
            rw [alist.setE_localized pre rest v.name hpre hrest v
              (fun u => { u with value := OutValue.array arr.1 arr.2 })]
            simp only [except_bind_ok]
            rw [boundUpdate_localized parsed pre rest v.name hpre hrest]
            cases hb1 : boundOne parsed { v with value := OutValue.array arr.1 arr.2 }
                OutputVariable.x_min_variable (fun u x => { u with x_min := some x }) with
            | error e => simp only [except_bind_error, except_map_error]
            | ok v2 =>
              simp only [except_map_ok, except_bind_ok]
              rw [boundUpdate_localized parsed pre rest v.name hpre hrest]
              cases hb2 : boundOne parsed v2
                  OutputVariable.x_max_variable (fun u x => { u with x_max := some x }) with
              | error e => simp only [except_bind_error, except_map_error]
              | ok v3 =>
                simp only [except_map_ok, except_bind_ok]
                rw [boundUpdate_localized parsed pre rest v.name hpre hrest]
                cases hb3 : boundOne parsed v3
                    OutputVariable.y_min_variable (fun u x => { u with y_min := some x }) with
                | error e => simp only [except_bind_error, except_map_error]
                | ok v4 =>
                  simp only [except_map_ok, except_bind_ok]
                  rw [boundUpdate_localized parsed pre rest v.name hpre hrest]
    · rw [if_neg h2, if_neg h2, except_map_ok]

end LumeModel

namespace LumeModel

theorem getElem?_append_mid {α : Type} (pre rest : List α) (a : α) :
    (pre ++ a :: rest)[pre.length]? = some a := by
  induction pre with
  | nil => simp
  | cons x xs ih => simpa using ih

theorem prepLoop_succ (parsed : List (String × Tensor)) (fuel i : Nat)
    (reg : List (String × OutputVariable)) :
    prepLoop parsed (fuel + 1) i reg =
      (match reg[i]? with
      | none => .ok reg
      | some p => do
        let reg' ← processVar parsed reg p.2
        prepLoop parsed fuel (i + 1) reg') := rfl

/-- One registry entry, processed: the per-entry effect of the
`_prepare_outputs` loop, keyed. -/
def entryProcess (parsed : List (String × Tensor))
    (p : String × OutputVariable) : Except PyErr (String × OutputVariable) := do
  let v' ← processOne parsed p.2
  .ok (p.1, v')

theorem mapME_cons {α β : Type} (f : α → Except PyErr β) (a : α) (l : List α) :
    mapME f (a :: l) = (do
      let b ← f a
      let bs ← mapME f l
      .ok (b :: bs)) := rfl

/-- The `_prepare_outputs` loop over a well-keyed registry (keys unique and
equal to each record's `name`) is precisely an entrywise monadic map. -/
theorem prepLoop_bridge (parsed : List (String × Tensor))
    (post : List (String × OutputVariable)) :
    ∀ pre : List (String × OutputVariable),
    (∀ p ∈ pre ++ post, p.2.name = p.1) →
    (((pre ++ post).map Prod.fst).Nodup) →
    prepLoop parsed post.length pre.length (pre ++ post) =
      (mapME (entryProcess parsed) post).map (fun post' => pre ++ post') := by
  induction post with
  | nil =>
    intro pre _ _
    simp [prepLoop, mapME, except_map_ok]
  | cons p rest ih =>
    intro pre hk hn
    obtain ⟨k, v⟩ := p
    have hname : v.name = k := hk (k, v) (by simp)
    have hkeys : (pre.map Prod.fst ++ k :: rest.map Prod.fst).Nodup := by
      simpa using hn
    have hmid := List.nodup_middle.mp hkeys
    have hpre : k ∉ pre.map Prod.fst := fun hmem =>
      (List.nodup_cons.mp hmid).1 (List.mem_append.mpr (Or.inl hmem))
    have hrest : k ∉ rest.map Prod.fst := fun hmem =>
      (List.nodup_cons.mp hmid).1 (List.mem_append.mpr (Or.inr hmem))
    rw [List.length_cons, prepLoop_succ]
    simp only [getElem?_append_mid]
    rw [processVar_localized parsed pre rest k v hname hpre hrest]
    rw [mapME_cons]
    simp only [entryProcess]
    cases hpo : processOne parsed v with
    | error e => simp only [except_map_error, except_bind_error]
    | ok v' =>
      simp only [except_map_ok, except_bind_ok]
      have hname' : v'.name = k := by
        rw [(processOne_preserves parsed v v' hpo).1, hname]
      have harr : pre ++ (k, v') :: rest = (pre ++ [(k, v')]) ++ rest := by
        simp
      have hk' : ∀ q ∈ (pre ++ [(k, v')]) ++ rest, q.2.name = q.1 := by
        intro q hq
        simp only [List.mem_append, List.mem_singleton] at hq
        rcases hq with (hq | hq) | hq
        · exact hk q (List.mem_append.mpr (Or.inl hq))
        · rw [hq]; exact hname'
        · exact hk q (List.mem_append.mpr (Or.inr (List.mem_cons_of_mem _ hq)))
      have hn' : (((pre ++ [(k, v')]) ++ rest).map Prod.fst).Nodup := by
        simp only [List.append_assoc, List.singleton_append, List.map_append,
          List.map_cons]
        exact hkeys
      have hlen : pre.length + 1 = (pre ++ [(k, v')]).length := by simp
      rw [harr, hlen, ih (pre ++ [(k, v')]) hk' hn']
      cases hrest' : mapME (entryProcess parsed) rest with
      | error e => simp only [except_map_error, except_bind_error]
      | ok post' =>
        simp only [except_map_ok, except_bind_ok, List.append_assoc,
          List.singleton_append]

end LumeModel

namespace LumeModel

theorem entryProcess_ok (parsed : List (String × Tensor))
    (p q : String × OutputVariable) (h : entryProcess parsed p = .ok q) :
    q.1 = p.1 ∧ processOne parsed p.2 = .ok q.2 := by
  unfold entryProcess at h
  cases hpo : processOne parsed p.2 with
  | error e => rw [hpo, except_bind_error] at h; exact absurd h (by simp)
  | ok b =>
    rw [hpo, except_bind_ok] at h
    injection h with hh
    rw [← hh]
    exact ⟨rfl, rfl⟩

theorem mapME_entry_lookup (parsed : List (String × Tensor))
    (l out : List (String × OutputVariable))
    (h : mapME (entryProcess parsed) l = .ok out) (k : String) :
    (alist.lookup l k = none → alist.lookup out k = none) ∧
    (∀ a, alist.lookup l k = some a →
      ∃ b, processOne parsed a = .ok b ∧ alist.lookup out k = some b) := by
  induction l generalizing out with
  | nil =>
    unfold mapME at h
    injection h with hh
    rw [← hh]
    exact ⟨fun _ => rfl, by simp [alist.lookup]⟩
  | cons p rest ih =>
    rw [mapME_cons] at h
    cases hp : entryProcess parsed p with
    | error e => rw [hp, except_bind_error] at h; exact absurd h (by simp)
    | ok q =>
      rw [hp, except_bind_ok] at h
      cases hrest : mapME (entryProcess parsed) rest with
      | error e => rw [hrest, except_bind_error] at h; exact absurd h (by simp)
      | ok out' =>
        rw [hrest, except_bind_ok] at h
        injection h with hh
        rw [← hh]
        obtain ⟨hq1, hq2⟩ := entryProcess_ok parsed p q hp
        obtain ⟨p1, p2⟩ := p
        obtain ⟨q1, q2⟩ := q
        simp only at hq1 hq2
        subst hq1
        constructor
        · intro hnone
          unfold alist.lookup at hnone ⊢
          by_cases hk : q1 = k
          · simp [hk] at hnone
          · simp only [hk, if_false] at hnone ⊢
            exact (ih out' hrest).1 hnone
        · intro a ha
          unfold alist.lookup at ha ⊢
          by_cases hk : q1 = k
          · simp only [hk, if_true, Option.some.injEq] at ha ⊢
            exact ⟨q2, by rw [← ha]; exact hq2, rfl⟩
          · simp only [hk, if_false] at ha ⊢
            exact (ih out' hrest).2 a ha

theorem mapME_entry_lookup_rev (parsed : List (String × Tensor))
    (l out : List (String × OutputVariable))
    (h : mapME (entryProcess parsed) l = .ok out) (k : String)
    (b : OutputVariable) (hb : alist.lookup out k = some b) :
    ∃ a, alist.lookup l k = some a ∧ processOne parsed a = .ok b := by
  obtain ⟨h1, h2⟩ := mapME_entry_lookup parsed l out h k
  cases hl : alist.lookup l k with
  | none => rw [h1 hl] at hb; exact absurd hb (by simp)
  | some a =>
    obtain ⟨b', hb', hout⟩ := h2 a hl
    rw [hout] at hb
    injection hb with hb
    exact ⟨a, rfl, hb ▸ hb'⟩

end LumeModel

namespace LumeModel

/-- Unfolding equation for `evaluate` in terms of its stages. -/
theorem evaluate_eq (m : PyTorchModel) (inputs : List (String × InputValue)) :
    evaluate m inputs = (do
      let r ← _prepare_inputs m inputs
      let arranged ← _arrange_inputs r.1 r.2
      let parsed ← _parse_outputs r.1
        (_transform_outputs r.1 (r.1.model (_transform_inputs r.1 arranged)))
      _prepare_outputs r.1 parsed) := rfl

/-- Decomposition of a successful `_prepare_outputs`: the loop succeeded, the
adapter carries the updated registry, and the output is dispatched on the
format selector. -/
theorem prepare_outputs_ok (m : PyTorchModel)
    (parsed : List (String × Tensor)) (m' : PyTorchModel) (out : EvalOutput)
    (h : _prepare_outputs m parsed = .ok (m', out)) :
    ∃ reg, prepLoop parsed m.output_variables.length 0 m.output_variables
        = .ok reg ∧
      m' = { m with output_variables := reg } ∧
      (alist.lookup m.output_format "type" = some "tensor" ∧ out = .tensors parsed ∨
       alist.lookup m.output_format "type" = some "variable" ∧ out = .variables reg ∨
       alist.lookup m.output_format "type" ≠ some "tensor" ∧
         alist.lookup m.output_format "type" ≠ some "variable" ∧
         out = .values (reg.map (fun p => (p.1, p.2.value)))) := by
  unfold _prepare_outputs at h
  cases hgo : prepLoop parsed m.output_variables.length 0 m.output_variables with
  | error e => rw [hgo, except_bind_error] at h; exact absurd h (by simp)
  | ok reg =>
    rw [hgo, except_bind_ok] at h
    refine ⟨reg, rfl, ?_⟩
    by_cases hc1 : alist.lookup m.output_format "type" = some "tensor"
    · rw [if_pos hc1] at h
      injection h with hh
      obtain ⟨h1, h2⟩ := Prod.ext_iff.mp hh
      exact ⟨h1.symm, Or.inl ⟨hc1, h2.symm⟩⟩
    · rw [if_neg hc1] at h
      by_cases hc2 : alist.lookup m.output_format "type" = some "variable"
      · rw [if_pos hc2] at h
        injection h with hh
        obtain ⟨h1, h2⟩ := Prod.ext_iff.mp hh
        exact ⟨h1.symm, Or.inr (Or.inl ⟨hc2, h2.symm⟩)⟩
      · rw [if_neg hc2] at h
        injection h with hh
        obtain ⟨h1, h2⟩ := Prod.ext_iff.mp hh
        exact ⟨h1.symm, Or.inr (Or.inr ⟨hc1, hc2, h2.symm⟩)⟩

/-- C2: For every successful evaluate call, the returned value is dispatched
on the configured output-format selector: when `type` is `"tensor"` it
returns the raw parsed name-to-value mapping; when `type` is `"variable"` it
returns the full updated output-variable registry; for any other `type`
value it returns a plain mapping from each output name to that variable
record's current value. -/
theorem prepare_outputs_format_dispatch (m : PyTorchModel)
    (parsed : List (String × Tensor)) (m' : PyTorchModel) (out : EvalOutput)
    (h : _prepare_outputs m parsed = .ok (m', out)) :
    (alist.lookup m.output_format "type" = some "tensor" →
      out = .tensors parsed) ∧
    (alist.lookup m.output_format "type" = some "variable" →
      out = .variables m'.output_variables) ∧
    (alist.lookup m.output_format "type" ≠ some "tensor" →
      alist.lookup m.output_format "type" ≠ some "variable" →
      out = .values (m'.output_variables.map (fun p => (p.1, p.2.value)))) := by
  obtain ⟨reg, hgo, hm', hdisp⟩ := prepare_outputs_ok m parsed m' out h
  have hreg : m'.output_variables = reg := by rw [hm']
  rcases hdisp with ⟨hc, hout⟩ | ⟨hc, hout⟩ | ⟨hc1, hc2, hout⟩
  · refine ⟨fun _ => hout, fun hc2 => ?_, fun hne _ => absurd hc hne⟩
    rw [hc] at hc2
    exact absurd (Option.some.injEq .. ▸ hc2) (by simp)
  · refine ⟨fun hc1 => ?_, fun _ => by rw [hout, hreg], fun _ hne => absurd hc hne⟩
    rw [hc] at hc1
    exact absurd (Option.some.injEq .. ▸ hc1) (by simp)
  · exact ⟨fun hc => absurd hc hc1, fun hc => absurd hc hc2,
      fun _ _ => by rw [hout, hreg]⟩

/-- C10: If the output-format configuration mapping has no `"type"` key at
all, `_prepare_outputs` does not raise at the formatting stage: the lookup
matches neither `"tensor"` nor `"variable"` and the call falls through to
returning the plain mapping of each output name to its variable record's
current value. -/
theorem missing_format_type_returns_values (m : PyTorchModel)
    (parsed : List (String × Tensor)) (reg : List (String × OutputVariable))
    (hfmt : alist.lookup m.output_format "type" = none)
    (hgo : prepLoop parsed m.output_variables.length 0 m.output_variables
      = .ok reg) :
    _prepare_outputs m parsed =
      .ok ({ m with output_variables := reg },
        .values (reg.map (fun p => (p.1, p.2.value)))) := by
  unfold _prepare_outputs
  rw [hgo, except_bind_ok]
  rw [if_neg (by rw [hfmt]; simp), if_neg (by rw [hfmt]; simp)]

/-- C3: the inverse-transform stage applies each transform's `untransform`
iterating in the same configured (forward) order, not the reversed order:
for a two-transform chain the first transform's inverse is applied first. -/
theorem transform_outputs_forward_order (m : PyTorchModel)
    (t1 t2 : Transformer) (x : Tensor) (h : m.output_transformers = [t1, t2]) :
    _transform_outputs m x = t2.untransform (t1.untransform x) := by
  unfold _transform_outputs
  rw [h]
  rfl

end LumeModel

namespace LumeModel

/-! ### Concrete instances used to witness the theorems -/

/-- A transform whose inverse adds one to every element. -/
def trAdd : Transformer :=
  ⟨fun t => t, fun t => { t with data := t.data.map (fun x => x + 1) }⟩

/-- A transform whose inverse doubles every element. -/
def trScale : Transformer :=
  ⟨fun t => t, fun t => { t with data := t.data.map (fun x => x * 2) }⟩

/-- A concrete one-element vector. -/
def tWit : Tensor := ⟨[1], [0], .float64, false⟩

/-- A concrete input variable with default 1. -/
def ivX : InputVariable := ⟨"x", .scalar 0, 1⟩

/-- A concrete scalar output variable. -/
def ovY : OutputVariable :=
  ⟨"y", "scalar", .scalar 0, [], none, none, none, none, none, none, none, none⟩

/-- A concrete image output variable of shape `[1]` whose `x_min` bound is
back-referenced to output `"y"`. -/
def ovZ : OutputVariable :=
  ⟨"z", "image", .scalar 0, [1], some "y", none, none, none, none, none, none,
    none⟩

/-- A concrete adapter: one input, a scalar output `"y"` and an image output
`"z"`, no transforms, tensor output format; the loaded model duplicates its
input vector (and, like a real forward pass that is later detached, yields a
grad-free tensor). -/
def mBase : PyTorchModel :=
  { input_variables := [("x", ivX)]
    output_variables := [("y", ovY), ("z", ovZ)]
    input_transformers := []
    output_transformers := []
    output_format := [("type", "tensor")]
    feature_order := none
    output_order := none
    model := fun t => ⟨[2], t.data ++ t.data, .float64, false⟩ }

/-- A concrete parsed-output mapping for the two outputs of `mBase`. -/
def parsedWit : List (String × Tensor) :=
  [("y", ⟨[], [3], .float64, false⟩), ("z", ⟨[], [3], .float64, false⟩)]

/-- `mBase`'s output registry after the update loop runs on `parsedWit`. -/
def regWit : List (String × OutputVariable) :=
  [("y", { ovY with value := .scalar 3 }),
   ("z", { ovZ with value := .array [1] [3], x_min := some 3 })]

theorem prepare_outputs_format_dispatch_witness :
    _prepare_outputs mBase parsedWit =
      .ok ({ mBase with output_variables := regWit }, .tensors parsedWit) ∧
    EvalOutput.tensors parsedWit = .tensors parsedWit :=
  ⟨rfl, (prepare_outputs_format_dispatch mBase parsedWit
      { mBase with output_variables := regWit } (.tensors parsedWit) rfl).1
      (by decide)⟩

theorem missing_format_type_returns_values_witness :
    alist.lookup (PyTorchModel.output_format { mBase with output_format := [] })
        "type" = none ∧
    _prepare_outputs { mBase with output_format := [] } parsedWit =
      .ok ({ { mBase with output_format := [] } with output_variables := regWit },
        .values (regWit.map (fun p => (p.1, p.2.value)))) :=
  ⟨rfl, missing_format_type_returns_values { mBase with output_format := [] }
    parsedWit regWit rfl rfl⟩

theorem transform_outputs_forward_order_witness :
    PyTorchModel.output_transformers
        { mBase with output_transformers := [trAdd, trScale] } =
      [trAdd, trScale] ∧
    _transform_outputs { mBase with output_transformers := [trAdd, trScale] }
        tWit = trScale.untransform (trAdd.untransform tWit) ∧
    _transform_outputs { mBase with output_transformers := [trAdd, trScale] }
        tWit ≠ trAdd.untransform (trScale.untransform tWit) :=
  ⟨rfl, transform_outputs_forward_order
      { mBase with output_transformers := [trAdd, trScale] } trAdd trScale
      tWit rfl,
    by norm_num [_transform_outputs, trAdd, trScale, tWit]⟩

end LumeModel

namespace LumeModel

/-- C5: For every caller-supplied input entry, input normalization resolves
its value as follows: a rich input-variable object contributes its `value`
field; a plain numeric scalar is taken directly; otherwise the entry is
assumed tensor-like and its scalar value is extracted with `.item()`. -/
theorem prepare_inputs_value_resolution (inputs : List (String × InputValue))
    (k : String) (var : InputVariable) :
    (∀ iv, alist.lookup inputs k = some (.variable iv) →
      resolveVar inputs k var = .ok { var with value := iv.value }) ∧
    (∀ x, alist.lookup inputs k = some (.float x) →
      resolveVar inputs k var = .ok { var with value := .scalar x }) ∧
    (∀ t x, alist.lookup inputs k = some (.tensor t) → t.item = .ok x →
      resolveVar inputs k var = .ok { var with value := .scalar x }) := by
  refine ⟨fun iv h => ?_, fun x h => ?_, fun t x h hx => ?_⟩
  · unfold resolveVar
    simp only [h]
  · unfold resolveVar
    simp only [h]
  · unfold resolveVar
    simp only [h, hx, except_bind_ok]

theorem prepare_inputs_value_resolution_witness :
    alist.lookup [("x", InputValue.variable { ivX with value := .scalar 7 })]
        "x" = some (.variable { ivX with value := .scalar 7 }) ∧
    resolveVar [("x", InputValue.variable { ivX with value := .scalar 7 })]
        "x" ivX = .ok { ivX with value := .scalar 7 } ∧
    resolveVar [("x", InputValue.float 5)] "x" ivX =
      .ok { ivX with value := .scalar 5 } ∧
    resolveVar [("x", InputValue.tensor ⟨[], [9], .float64, false⟩)] "x" ivX =
      .ok { ivX with value := .scalar 9 } :=
  ⟨rfl,
   (prepare_inputs_value_resolution
      [("x", InputValue.variable { ivX with value := .scalar 7 })] "x" ivX).1
      { ivX with value := .scalar 7 } rfl,
   (prepare_inputs_value_resolution [("x", InputValue.float 5)] "x" ivX).2.1
      5 rfl,
   (prepare_inputs_value_resolution
      [("x", InputValue.tensor ⟨[], [9], .float64, false⟩)] "x" ivX).2.2
      ⟨[], [9], .float64, false⟩ 9 rfl rfl⟩

/-- C4: after input resolution, every registry entry whose resolved value is
not already a tensor is coerced to a 0-dim double-precision tensor with
gradient tracking enabled, and an already-tensor value passes through
unchanged (same dtype, no upgrade). -/
theorem prepare_inputs_tensor_coercion (m : PyTorchModel)
    (inputs : List (String × InputValue)) (m' : PyTorchModel)
    (vals : List (String × Tensor))
    (h : _prepare_inputs m inputs = .ok (m', vals)) :
    ∀ k var, alist.lookup m'.input_variables k = some var →
      ((∃ x, var.value = VarValue.scalar x ∧
          alist.lookup vals k = some ⟨[], [x], Dtype.float64, true⟩) ∨
       (∃ t, var.value = VarValue.tensor t ∧ alist.lookup vals k = some t)) := by
  unfold _prepare_inputs at h
  cases hmm : mapME (fun p => do
      let var ← resolveVar inputs p.1 p.2
      pure (p.1, var)) m.input_variables with
  | error e => rw [hmm, except_bind_error] at h; exact absurd h (by simp)
  | ok reg =>
    rw [hmm, except_bind_ok] at h
    injection h with hh
    rw [Prod.mk.injEq] at hh
    obtain ⟨h1, h2⟩ := hh
    intro k var hvar
    have hvin : m'.input_variables = reg := by rw [← h1]
    rw [hvin] at hvar
    have hl : alist.lookup vals k = some (coerceToTensor var.value) := by
      rw [← h2, alist.lookup_map (fun a => coerceToTensor a.value) reg k, hvar]
      rfl
    cases hv : var.value with
    | scalar x =>
      refine Or.inl ⟨x, rfl, ?_⟩
      rw [hl, hv]
      rfl
    | tensor t =>
      refine Or.inr ⟨t, rfl, ?_⟩
      rw [hl, hv]
      rfl

theorem prepare_inputs_tensor_coercion_witness :
    _prepare_inputs mBase [("x", InputValue.float 2)] =
      .ok ({ mBase with input_variables := [("x", { ivX with value := .scalar 2 })] },
        [("x", ⟨[], [2], .float64, true⟩)]) ∧
    ((∃ x, VarValue.scalar (2 : Rat) = VarValue.scalar x ∧
        alist.lookup [("x", (⟨[], [2], .float64, true⟩ : Tensor))] "x" =
          some ⟨[], [x], Dtype.float64, true⟩) ∨
     (∃ t, VarValue.scalar (2 : Rat) = VarValue.tensor t ∧
        alist.lookup [("x", (⟨[], [2], .float64, true⟩ : Tensor))] "x" = some t)) :=
  ⟨rfl,
   prepare_inputs_tensor_coercion mBase [("x", InputValue.float 2)]
     { mBase with input_variables := [("x", { ivX with value := .scalar 2 })] }
     [("x", ⟨[], [2], .float64, true⟩)] rfl "x"
     { ivX with value := .scalar 2 } rfl⟩

end LumeModel

namespace LumeModel

theorem mapME_getE_first_missing {α : Type} (vals : List (String × α)) :
    ∀ l : List String, (∃ n ∈ l, alist.lookup vals n = none) →
    ∃ n0, n0 ∈ l ∧ alist.lookup vals n0 = none ∧
      mapME (fun n => alist.getE vals n) l = .error (.keyError n0) := by
  intro l
  induction l with
  | nil =>
    rintro ⟨n, hn, -⟩
    simp at hn
  | cons a rest ih =>
    rintro ⟨n, hn, hnone⟩
    cases ha : alist.lookup vals a with
    | none =>
      refine ⟨a, List.mem_cons_self _ _, ha, ?_⟩
      rw [mapME_cons]
      have hga : alist.getE vals a = .error (.keyError a) := by
        unfold alist.getE
        rw [ha]
      rw [hga, except_bind_error]
    | some b =>
      have hne : n ≠ a := by
        intro he
        rw [he, ha] at hnone
        exact absurd hnone (by simp)
      have hmem : n ∈ rest := by
        rcases List.mem_cons.mp hn with h | h
        · exact absurd h hne
        · exact h
      obtain ⟨n0, hmem0, hn0, herr⟩ := ih ⟨n, hmem, hnone⟩
      refine ⟨n0, List.mem_cons_of_mem _ hmem0, hn0, ?_⟩
      rw [mapME_cons]
      have hga : alist.getE vals a = .ok b := by
        unfold alist.getE
        rw [ha]
      rw [hga, except_bind_ok, herr, except_bind_error]

/-- C6: for every name appearing in the effective feature order (configured,
or registry insertion order as fallback) that has no entry in the normalized
input mapping, feature arrangement raises a `KeyError` for some missing
feature name — it never silently drops a feature and returns a vector. -/
theorem arrange_inputs_missing_feature_raises (m : PyTorchModel)
    (vals : List (String × Tensor)) (n : String)
    (hmem : n ∈ featureOrder m) (hmiss : alist.lookup vals n = none) :
    ∃ n0, n0 ∈ featureOrder m ∧ alist.lookup vals n0 = none ∧
      _arrange_inputs m vals = .error (.keyError n0) := by
  obtain ⟨n0, hm0, hn0, herr⟩ :=
    mapME_getE_first_missing vals (featureOrder m) ⟨n, hmem, hmiss⟩
  refine ⟨n0, hm0, hn0, ?_⟩
  unfold _arrange_inputs
  rw [herr, except_bind_error]

theorem arrange_inputs_missing_feature_raises_witness :
    "x" ∈ featureOrder mBase ∧
    alist.lookup ([] : List (String × Tensor)) "x" = none ∧
    ∃ n0, n0 ∈ featureOrder mBase ∧
      alist.lookup ([] : List (String × Tensor)) n0 = none ∧
      _arrange_inputs mBase [] = .error (.keyError n0) :=
  ⟨by decide, rfl,
   arrange_inputs_missing_feature_raises mBase [] "x" (by decide) rfl⟩

theorem mapME_keyed_lookup {α β : Type} (g : String → α → Except PyErr β)
    (l : List (String × α)) (out : List (String × β))
    (h : mapME (fun p => do
        let b ← g p.1 p.2
        pure (p.1, b)) l = .ok out) (k : String) :
    (alist.lookup l k = none → alist.lookup out k = none) ∧
    (∀ a, alist.lookup l k = some a →
      ∃ b, g k a = .ok b ∧ alist.lookup out k = some b) := by
  induction l generalizing out with
  | nil =>
    unfold mapME at h
    injection h with hh
    rw [← hh]
    exact ⟨fun _ => rfl, by simp [alist.lookup]⟩
  | cons p rest ih =>
    rw [mapME_cons] at h
    cases hp : g p.1 p.2 with
    | error e =>
      rw [hp] at h
      simp only [except_bind_error] at h
      exact absurd h (by simp)
    | ok b =>
      rw [hp] at h
      simp only [except_bind_ok, except_pure_bind] at h
      cases hrest : mapME (fun p => do
          let b ← g p.1 p.2
          pure (p.1, b)) rest with
      | error e =>
        rw [hrest] at h
        simp only [except_bind_error] at h
        exact absurd h (by simp)
      | ok out' =>
        rw [hrest] at h
        simp only [except_bind_ok] at h
        injection h with hh
        rw [← hh]
        obtain ⟨p1, p2⟩ := p
        constructor
        · intro hnone
          unfold alist.lookup at hnone ⊢
          by_cases hk : p1 = k
          · simp [hk] at hnone
          · simp only [hk, if_false] at hnone ⊢
            exact (ih out' hrest).1 hnone
        · intro a ha
          unfold alist.lookup at ha ⊢
          by_cases hk : p1 = k
          · simp only [hk, if_true, Option.some.injEq] at ha ⊢
            refine ⟨b, ?_, rfl⟩
            rw [← ha, ← hk]
            exact hp
          · simp only [hk, if_false] at ha ⊢
            exact (ih out' hrest).2 a ha

end LumeModel

namespace LumeModel

/-- C1: for every input name registered in the adapter's input registry but
absent from the caller-supplied mapping, `evaluate` substitutes that
variable's stored default value non-fatally: the call behaves exactly as if
the caller had supplied the default for that name, and after
`_prepare_inputs` the registry entry holds the default. -/
theorem evaluate_default_substitution (m : PyTorchModel)
    (inputs : List (String × InputValue)) (n : String) (v : InputVariable)
    (hnodup : (m.input_variables.map Prod.fst).Nodup)
    (hreg : alist.lookup m.input_variables n = some v)
    (habs : alist.lookup inputs n = none) :
    evaluate m inputs =
      evaluate m (inputs ++ [(n, InputValue.float v.default)]) ∧
    (∀ m' vals, _prepare_inputs m inputs = .ok (m', vals) →
      alist.lookup m'.input_variables n =
        some { v with value := VarValue.scalar v.default }) := by
  have hres : ∀ p ∈ m.input_variables,
      resolveVar inputs p.1 p.2 =
        resolveVar (inputs ++ [(n, InputValue.float v.default)]) p.1 p.2 := by
    intro p hp
    cases hlk : alist.lookup inputs p.1 with
    | some val =>
      unfold resolveVar
      rw [hlk, alist.lookup_append_left _ _ _ _ hlk]
    | none =>
      by_cases hkn : p.1 = n
      · have hpv : p.2 = v := by
          have hlu := alist.lookup_of_mem_nodup m.input_variables p.1 p.2 hnodup hp
          rw [hkn, hreg] at hlu
          exact (Option.some_inj.mp hlu).symm
        have hone : alist.lookup (inputs ++ [(n, InputValue.float v.default)])
            p.1 = some (InputValue.float v.default) := by
          rw [hkn, alist.lookup_append_of_notin _ _ _ habs]
          simp [alist.lookup]
        unfold resolveVar
        simp only [hlk, hone, hpv]
      · unfold resolveVar
        rw [hlk, alist.lookup_append_of_notin _ _ _ hlk]
        have : alist.lookup [(n, InputValue.float v.default)] p.1 = none := by
          simp only [alist.lookup]
          rw [if_neg (fun hh => hkn hh.symm)]
        rw [this]
  have hprep : _prepare_inputs m inputs =
      _prepare_inputs m (inputs ++ [(n, InputValue.float v.default)]) := by
    unfold _prepare_inputs
    rw [mapME_congr (fun p => do
        let var ← resolveVar inputs p.1 p.2
        pure (p.1, var))
      (fun p => do
        let var ← resolveVar (inputs ++ [(n, InputValue.float v.default)]) p.1 p.2
        pure (p.1, var))
      m.input_variables (fun p hp => by simp only [hres p hp])]
  constructor
  · rw [evaluate_eq, evaluate_eq, hprep]
  · intro m' vals h
    unfold _prepare_inputs at h
    cases hmm : mapME (fun p => do
        let var ← resolveVar inputs p.1 p.2
        pure (p.1, var)) m.input_variables with
    | error e => rw [hmm, except_bind_error] at h; exact absurd h (by simp)
    | ok reg =>
      rw [hmm, except_bind_ok] at h
      injection h with hh
      rw [Prod.mk.injEq] at hh
      obtain ⟨h1, h2⟩ := hh
      have hvin : m'.input_variables = reg := by rw [← h1]
      rw [hvin]
      obtain ⟨b, hb, hlook⟩ :=
        (mapME_keyed_lookup (fun k var => resolveVar inputs k var)
          m.input_variables reg hmm n).2 v hreg
      have : resolveVar inputs n v =
          .ok { v with value := VarValue.scalar v.default } := by
        unfold resolveVar
        rw [habs]
      rw [this] at hb
      injection hb with hb
      rw [hlook, hb]

theorem evaluate_default_substitution_witness :
    alist.lookup mBase.input_variables "x" = some ivX ∧
    alist.lookup ([] : List (String × InputValue)) "x" = none ∧
    evaluate mBase [] =
      evaluate mBase ([] ++ [("x", InputValue.float ivX.default)]) :=
  ⟨rfl, rfl,
   (evaluate_default_substitution mBase [] "x" ivX (by decide) rfl rfl).1⟩

end LumeModel

namespace LumeModel

theorem processOne_image_mismatch_errors (parsed : List (String × Tensor))
    (v : OutputVariable) (t : Tensor)
    (htype : v.variable_type = "image")
    (ht : alist.lookup parsed v.name = some t)
    (hmis : v.shape.prod ≠ t.data.length) :
    ∀ b, processOne parsed v ≠ .ok b := by
  intro b h
  unfold processOne at h
  rw [if_neg (by rw [htype]; simp), if_pos htype] at h
  have hg : alist.getE parsed v.name = .ok t := by
    unfold alist.getE
    rw [ht]
  rw [hg] at h
  simp only [except_bind_ok] at h
  have hr : t.reshape v.shape =
      .error (.runtimeError "reshape: shape is invalid for input size") := by
    unfold Tensor.reshape
    rw [if_neg hmis]
  rw [hr] at h
  simp only [except_bind_error] at h
  exact absurd h (by simp)

/-- Decomposition of a successful `evaluate` into its stages. -/
theorem evaluate_ok_decomp (m : PyTorchModel)
    (inputs : List (String × InputValue)) (res : PyTorchModel × EvalOutput)
    (h : evaluate m inputs = .ok res) :
    ∃ r arranged parsed,
      _prepare_inputs m inputs = .ok r ∧
      _arrange_inputs r.1 r.2 = .ok arranged ∧
      _parse_outputs r.1
        (_transform_outputs r.1 (r.1.model (_transform_inputs r.1 arranged)))
        = .ok parsed ∧
      _prepare_outputs r.1 parsed = .ok res := by
  rw [evaluate_eq] at h
  cases h1 : _prepare_inputs m inputs with
  | error e => rw [h1] at h; simp only [except_bind_error] at h; exact absurd h (by simp)
  | ok r =>
    rw [h1] at h
    simp only [except_bind_ok] at h
    cases h2 : _arrange_inputs r.1 r.2 with
    | error e => rw [h2] at h; simp only [except_bind_error] at h; exact absurd h (by simp)
    | ok arranged =>
      rw [h2] at h
      simp only [except_bind_ok] at h
      cases h3 : _parse_outputs r.1
          (_transform_outputs r.1 (r.1.model (_transform_inputs r.1 arranged))) with
      | error e => rw [h3] at h; simp only [except_bind_error] at h; exact absurd h (by simp)
      | ok parsed =>
        rw [h3] at h
        simp only [except_bind_ok] at h
        exact ⟨r, arranged, parsed, rfl, h2, h3, h⟩

/-- C9: for every output variable of kind `image` whose parsed slot's element
count does not match the product of its configured shape, the output stage
raises (it never silently truncates or pads), and `evaluate` propagates that
same error unmodified to the caller. -/
theorem image_reshape_mismatch_raises (m : PyTorchModel)
    (inputs : List (String × InputValue))
    (r : PyTorchModel × List (String × Tensor)) (arranged : Tensor)
    (parsed : List (String × Tensor)) (k : String) (v : OutputVariable)
    (t : Tensor)
    (hk : ∀ p ∈ r.1.output_variables, p.2.name = p.1)
    (hn : (r.1.output_variables.map Prod.fst).Nodup)
    (h1 : _prepare_inputs m inputs = .ok r)
    (h2 : _arrange_inputs r.1 r.2 = .ok arranged)
    (h3 : _parse_outputs r.1
      (_transform_outputs r.1 (r.1.model (_transform_inputs r.1 arranged)))
      = .ok parsed)
    (hmem : (k, v) ∈ r.1.output_variables)
    (htype : v.variable_type = "image")
    (ht : alist.lookup parsed v.name = some t)
    (hmis : v.shape.prod ≠ t.data.length) :
    ∃ e, _prepare_outputs r.1 parsed = .error e ∧
      evaluate m inputs = .error e := by
  have hep : ∀ b, entryProcess parsed (k, v) ≠ .ok b := by
    intro b hb
    obtain ⟨-, hq⟩ := entryProcess_ok parsed (k, v) b hb
    exact processOne_image_mismatch_errors parsed v t htype ht hmis b.2 hq
  obtain ⟨e, he⟩ := mapME_error_of_mem (entryProcess parsed)
    r.1.output_variables (k, v) hmem hep
  have hloop : prepLoop parsed r.1.output_variables.length 0
      r.1.output_variables = .error e := by
    have hb := prepLoop_bridge parsed r.1.output_variables [] hk hn
    simp only [List.nil_append, List.length_nil] at hb
    rw [hb, he, except_map_error]
  have hpo : _prepare_outputs r.1 parsed = .error e := by
    unfold _prepare_outputs
    rw [hloop]
    simp only [except_bind_error]
  refine ⟨e, hpo, ?_⟩
  rw [evaluate_eq, h1]
  simp only [except_bind_ok]
  rw [h2]
  simp only [except_bind_ok]
  rw [h3]
  simp only [except_bind_ok]
  exact hpo

end LumeModel

namespace LumeModel

/-- An image output whose configured shape `[2]` disagrees with its
one-element slot. -/
def ovZ2 : OutputVariable := { ovZ with shape := [2] }

/-- `mBase` with the mismatched image output. -/
def mC9 : PyTorchModel := { mBase with output_variables := [("y", ovY), ("z", ovZ2)] }

/-- The state/values pair `_prepare_inputs` produces for `mC9` on input
`x = 1`. -/
def rC9 : PyTorchModel × List (String × Tensor) :=
  ({ mC9 with input_variables := [("x", { ivX with value := .scalar 1 })] },
   [("x", ⟨[], [1], .float64, true⟩)])

/-- The arranged feature vector for that call. -/
def arrC9 : Tensor := ⟨[1], [1], .float64, true⟩

/-- The parsed output mapping for that call. -/
def parsedC9 : List (String × Tensor) :=
  [("y", ⟨[], [1], .float64, false⟩), ("z", ⟨[], [1], .float64, false⟩)]

theorem image_reshape_mismatch_raises_witness :
    ovZ2.variable_type = "image" ∧
    alist.lookup parsedC9 ovZ2.name = some ⟨[], [1], .float64, false⟩ ∧
    ovZ2.shape.prod ≠ (Tensor.data ⟨[], [1], .float64, false⟩).length ∧
    ∃ e, _prepare_outputs rC9.1 parsedC9 = .error e ∧
      evaluate mC9 [("x", InputValue.float 1)] = .error e :=
  ⟨rfl, rfl, by decide,
   image_reshape_mismatch_raises mC9 [("x", InputValue.float 1)] rC9 arrC9
     parsedC9 "z" ovZ2 ⟨[], [1], .float64, false⟩ (by decide) (by decide)
     rfl rfl rfl (by decide) rfl rfl (by decide)⟩

end LumeModel

namespace LumeModel

theorem processOne_image_ok (parsed : List (String × Tensor))
    (v v' : OutputVariable) (htype : v.variable_type = "image")
    (h : processOne parsed v = .ok v') :
    ∃ t t2 arr v2 v3 v4,
      alist.lookup parsed v.name = some t ∧
      t.reshape v.shape = .ok t2 ∧
      t2.numpy = .ok arr ∧
      boundOne parsed { v with value := OutValue.array arr.1 arr.2 }
        OutputVariable.x_min_variable
        (fun u x => { u with x_min := some x }) = .ok v2 ∧
      boundOne parsed v2 OutputVariable.x_max_variable
        (fun u x => { u with x_max := some x }) = .ok v3 ∧
      boundOne parsed v3 OutputVariable.y_min_variable
        (fun u x => { u with y_min := some x }) = .ok v4 ∧
      boundOne parsed v4 OutputVariable.y_max_variable
        (fun u x => { u with y_max := some x }) = .ok v' := by
  unfold processOne at h
  rw [if_neg (by rw [htype]; simp), if_pos htype] at h
  cases hg : alist.getE parsed v.name with
  | error e => rw [hg] at h; simp only [except_bind_error] at h; exact absurd h (by simp)
  | ok t =>
    rw [hg] at h
    simp only [except_bind_ok] at h
    cases hr : t.reshape v.shape with
    | error e => rw [hr] at h; simp only [except_bind_error] at h; exact absurd h (by simp)
    | ok t2 =>
      rw [hr] at h
      simp only [except_bind_ok] at h
      cases hnp : t2.numpy with
      | error e => rw [hnp] at h; simp only [except_bind_error] at h; exact absurd h (by simp)
      | ok arr =>
        rw [hnp] at h
        simp only [except_bind_ok] at h
        cases hb1 : boundOne parsed { v with value := OutValue.array arr.1 arr.2 }
            OutputVariable.x_min_variable
            (fun u x => { u with x_min := some x }) with
        | error e => rw [hb1] at h; simp only [except_bind_error] at h; exact absurd h (by simp)
        | ok v2 =>
          rw [hb1] at h
          simp only [except_bind_ok] at h
          cases hb2 : boundOne parsed v2 OutputVariable.x_max_variable
              (fun u x => { u with x_max := some x }) with
          | error e => rw [hb2] at h; simp only [except_bind_error] at h; exact absurd h (by simp)
          | ok v3 =>
            rw [hb2] at h
            simp only [except_bind_ok] at h
            cases hb3 : boundOne parsed v3 OutputVariable.y_min_variable
                (fun u x => { u with y_min := some x }) with
            | error e => rw [hb3] at h; simp only [except_bind_error] at h; exact absurd h (by simp)
            | ok v4 =>
              rw [hb3] at h
              simp only [except_bind_ok] at h
              exact ⟨t, t2, arr, v2, v3, v4, alist.getE_ok hg, hr, hnp,
                hb1, hb2, hb3, h⟩

end LumeModel

namespace LumeModel

theorem prepLoop_ok_mapME (parsed : List (String × Tensor))
    (reg reg' : List (String × OutputVariable))
    (hk : ∀ p ∈ reg, p.2.name = p.1) (hn : (reg.map Prod.fst).Nodup)
    (h : prepLoop parsed reg.length 0 reg = .ok reg') :
    mapME (entryProcess parsed) reg = .ok reg' := by
  have hb := prepLoop_bridge parsed reg [] hk hn
  simp only [List.nil_append, List.length_nil] at hb
  rw [hb] at h
  cases hm : mapME (entryProcess parsed) reg with
  | error e => rw [hm, except_map_error] at h; exact absurd h (by simp)
  | ok l =>
    rw [hm] at h
    simp only [except_map_ok] at h
    injection h with hh
    rw [hh]

end LumeModel

namespace LumeModel

/-- C7: after a successful output stage, every image variable's bound whose
back-reference names an output is set to the `.item()` of that output's entry
in this call's parsed mapping (the current post-call value, not a stale one),
and every bound whose back-reference is unset is left unchanged — for each of
`x_min`, `x_max`, `y_min`, `y_max`. -/
theorem image_bounds_updated_from_current_outputs (m : PyTorchModel)
    (parsed : List (String × Tensor)) (m' : PyTorchModel) (out : EvalOutput)
    (hk : ∀ p ∈ m.output_variables, p.2.name = p.1)
    (hn : (m.output_variables.map Prod.fst).Nodup)
    (h : _prepare_outputs m parsed = .ok (m', out))
    (n : String) (v : OutputVariable)
    (hv : alist.lookup m.output_variables n = some v)
    (htype : v.variable_type = "image") :
    ∃ v', alist.lookup m'.output_variables n = some v' ∧
      (v.x_min_variable = none → v'.x_min = v.x_min) ∧
      (∀ s, v.x_min_variable = some s → s ≠ "" →
        ∃ t x, alist.lookup parsed s = some t ∧ t.item = .ok x ∧
          v'.x_min = some x) ∧
      (v.x_max_variable = none → v'.x_max = v.x_max) ∧
      (∀ s, v.x_max_variable = some s → s ≠ "" →
        ∃ t x, alist.lookup parsed s = some t ∧ t.item = .ok x ∧
          v'.x_max = some x) ∧
      (v.y_min_variable = none → v'.y_min = v.y_min) ∧
      (∀ s, v.y_min_variable = some s → s ≠ "" →
        ∃ t x, alist.lookup parsed s = some t ∧ t.item = .ok x ∧
          v'.y_min = some x) ∧
      (v.y_max_variable = none → v'.y_max = v.y_max) ∧
      (∀ s, v.y_max_variable = some s → s ≠ "" →
        ∃ t x, alist.lookup parsed s = some t ∧ t.item = .ok x ∧
          v'.y_max = some x) := by
  obtain ⟨reg, hgo, hm', -⟩ := prepare_outputs_ok m parsed m' out h
  have hmap := prepLoop_ok_mapME parsed m.output_variables reg hk hn hgo
  obtain ⟨b, hb, hlook⟩ :=
    (mapME_entry_lookup parsed m.output_variables reg hmap n).2 v hv
  obtain ⟨t, t2, arr, v2, v3, v4, hlk, hre, hnp, hb1, hb2, hb3, hb4⟩ :=
    processOne_image_ok parsed v b htype hb
  have hreg' : m'.output_variables = reg := by rw [hm']
  have s1 := boundOne_spec parsed _ _ _ v2 hb1
  have s2 := boundOne_spec parsed _ _ _ v3 hb2
  have s3 := boundOne_spec parsed _ _ _ v4 hb3
  have s4 := boundOne_spec parsed _ _ _ b hb4
  have h1f : v2.x_max = v.x_max ∧ v2.y_min = v.y_min ∧ v2.y_max = v.y_max ∧
      v2.x_max_variable = v.x_max_variable ∧
      v2.y_min_variable = v.y_min_variable ∧
      v2.y_max_variable = v.y_max_variable := by
    rcases s1 with ⟨-, rfl⟩ | ⟨s, t', x, -, -, -, -, rfl⟩ <;>
      exact ⟨rfl, rfl, rfl, rfl, rfl, rfl⟩
  have h2f : v3.x_min = v2.x_min ∧ v3.y_min = v2.y_min ∧ v3.y_max = v2.y_max ∧
      v3.x_max_variable = v2.x_max_variable ∧
      v3.y_min_variable = v2.y_min_variable ∧
      v3.y_max_variable = v2.y_max_variable := by
    rcases s2 with ⟨-, rfl⟩ | ⟨s, t', x, -, -, -, -, rfl⟩ <;>
      exact ⟨rfl, rfl, rfl, rfl, rfl, rfl⟩
  have h3f : v4.x_min = v3.x_min ∧ v4.x_max = v3.x_max ∧ v4.y_max = v3.y_max ∧
      v4.y_min_variable = v3.y_min_variable ∧
      v4.y_max_variable = v3.y_max_variable := by
    rcases s3 with ⟨-, rfl⟩ | ⟨s, t', x, -, -, -, -, rfl⟩ <;>
      exact ⟨rfl, rfl, rfl, rfl, rfl⟩
  have h4f : b.x_min = v4.x_min ∧ b.x_max = v4.x_max ∧ b.y_min = v4.y_min ∧
      b.y_max_variable = v4.y_max_variable := by
    rcases s4 with ⟨-, rfl⟩ | ⟨s, t', x, -, -, -, -, rfl⟩ <;>
      exact ⟨rfl, rfl, rfl, rfl⟩
  refine ⟨b, by rw [hreg']; exact hlook, ?_, ?_, ?_, ?_, ?_, ?_, ?_, ?_⟩
  · intro hxm
    rcases s1 with ⟨-, rfl⟩ | ⟨s, t', x, hget, -, -, -, rfl⟩
    · rw [h4f.1, h3f.1, h2f.1]
    · rw [show OutputVariable.x_min_variable
          { v with value := OutValue.array arr.1 arr.2 } = none from hxm] at hget
      exact absurd hget (by simp)
  · intro s hxm hs
    rcases s1 with ⟨htr, rfl⟩ | ⟨s', t', x, hget, -, hlk', hit, rfl⟩
    · rw [show OutputVariable.x_min_variable
          { v with value := OutValue.array arr.1 arr.2 } = some s from hxm] at htr
      simp [truthy, hs] at htr
    · have hss : s' = s := by
        rw [show OutputVariable.x_min_variable
            { v with value := OutValue.array arr.1 arr.2 } = some s from hxm] at hget
        exact (Option.some_inj.mp hget).symm
      subst hss
      refine ⟨t', x, hlk', hit, ?_⟩
      rw [h4f.1, h3f.1, h2f.1]
  · intro hxm
    rcases s2 with ⟨-, rfl⟩ | ⟨s, t', x, hget, -, -, -, rfl⟩
    · rw [h4f.2.1, h3f.2.1]
      exact h1f.1
    · rw [h1f.2.2.2.1, hxm] at hget
      exact absurd hget (by simp)
  · intro s hxm hs
    rcases s2 with ⟨htr, rfl⟩ | ⟨s', t', x, hget, -, hlk', hit, rfl⟩
    · rw [h1f.2.2.2.1, hxm] at htr
      simp [truthy, hs] at htr
    · have hss : s' = s := by
        rw [h1f.2.2.2.1, hxm] at hget
        exact (Option.some_inj.mp hget).symm
      subst hss
      refine ⟨t', x, hlk', hit, ?_⟩
      rw [h4f.2.1, h3f.2.1]
  · intro hxm
    rcases s3 with ⟨-, rfl⟩ | ⟨s, t', x, hget, -, -, -, rfl⟩
    · rw [h4f.2.2.1, h2f.2.1]
      exact h1f.2.1
    · rw [h2f.2.2.2.2.1, h1f.2.2.2.2.1, hxm] at hget
      exact absurd hget (by simp)
  · intro s hxm hs
    rcases s3 with ⟨htr, rfl⟩ | ⟨s', t', x, hget, -, hlk', hit, rfl⟩
    · rw [h2f.2.2.2.2.1, h1f.2.2.2.2.1, hxm] at htr
      simp [truthy, hs] at htr
    · have hss : s' = s := by
        rw [h2f.2.2.2.2.1, h1f.2.2.2.2.1, hxm] at hget
        exact (Option.some_inj.mp hget).symm
      subst hss
      refine ⟨t', x, hlk', hit, ?_⟩
      rw [h4f.2.2.1]
  · intro hxm
    rcases s4 with ⟨-, rfl⟩ | ⟨s, t', x, hget, -, -, -, rfl⟩
    · rw [h3f.2.2.1, h2f.2.2.1]
      exact h1f.2.2.1
    · rw [h3f.2.2.2.2, h2f.2.2.2.2.2, h1f.2.2.2.2.2, hxm] at hget
      exact absurd hget (by simp)
  · intro s hxm hs
    rcases s4 with ⟨htr, rfl⟩ | ⟨s', t', x, hget, -, hlk', hit, rfl⟩
    · rw [h3f.2.2.2.2, h2f.2.2.2.2.2, h1f.2.2.2.2.2, hxm] at htr
      simp [truthy, hs] at htr
    · have hss : s' = s := by
        rw [h3f.2.2.2.2, h2f.2.2.2.2.2, h1f.2.2.2.2.2, hxm] at hget
        exact (Option.some_inj.mp hget).symm
      subst hss
      exact ⟨t', x, hlk', hit, rfl⟩

end LumeModel

namespace LumeModel

theorem image_bounds_updated_from_current_outputs_witness :
    (∀ p ∈ mBase.output_variables, p.2.name = p.1) ∧
    ∃ v', alist.lookup (PyTorchModel.output_variables
        { mBase with output_variables := regWit }) "z" = some v' ∧
      (ovZ.x_min_variable = none → v'.x_min = ovZ.x_min) ∧
      (∀ s, ovZ.x_min_variable = some s → s ≠ "" →
        ∃ t x, alist.lookup parsedWit s = some t ∧ t.item = .ok x ∧
          v'.x_min = some x) ∧
      (ovZ.x_max_variable = none → v'.x_max = ovZ.x_max) ∧
      (∀ s, ovZ.x_max_variable = some s → s ≠ "" →
        ∃ t x, alist.lookup parsedWit s = some t ∧ t.item = .ok x ∧
          v'.x_max = some x) ∧
      (ovZ.y_min_variable = none → v'.y_min = ovZ.y_min) ∧
      (∀ s, ovZ.y_min_variable = some s → s ≠ "" →
        ∃ t x, alist.lookup parsedWit s = some t ∧ t.item = .ok x ∧
          v'.y_min = some x) ∧
      (ovZ.y_max_variable = none → v'.y_max = ovZ.y_max) ∧
      (∀ s, ovZ.y_max_variable = some s → s ≠ "" →
        ∃ t x, alist.lookup parsedWit s = some t ∧ t.item = .ok x ∧
          v'.y_max = some x) :=
  ⟨by decide,
   image_bounds_updated_from_current_outputs mBase parsedWit
     { mBase with output_variables := regWit } (.tensors parsedWit)
     (by decide) (by decide) rfl "z" ovZ rfl rfl⟩

end LumeModel

namespace LumeModel

theorem output_vars_format (m : PyTorchModel) (f : List (String × String)) :
    ({ m with output_format := f } : PyTorchModel).output_variables =
      m.output_variables := rfl

theorem output_format_format (m : PyTorchModel) (f : List (String × String)) :
    ({ m with output_format := f } : PyTorchModel).output_format = f := rfl

theorem arrange_inputs_format (m : PyTorchModel) (f : List (String × String))
    (vals : List (String × Tensor)) :
    _arrange_inputs { m with output_format := f } vals =
      _arrange_inputs m vals := rfl

theorem pipeline_mid_format (m : PyTorchModel) (f : List (String × String))
    (t : Tensor) :
    _parse_outputs { m with output_format := f }
        (_transform_outputs { m with output_format := f }
          (({ m with output_format := f } : PyTorchModel).model
            (_transform_inputs { m with output_format := f } t))) =
      _parse_outputs m
        (_transform_outputs m (m.model (_transform_inputs m t))) := rfl

/-- The input stage never reads the output-format selector: running it on an
adapter with a different selector changes only the selector field of the
returned adapter. -/
theorem prepare_inputs_format (m : PyTorchModel) (f : List (String × String))
    (inputs : List (String × InputValue)) :
    _prepare_inputs { m with output_format := f } inputs =
      (_prepare_inputs m inputs).map
        (fun r => ({ r.1 with output_format := f }, r.2)) := by
  unfold _prepare_inputs
  cases hmm : mapME (fun p => do
      let var ← resolveVar inputs p.1 p.2
      pure (p.1, var)) m.input_variables with
  | error e =>
    simp only [except_bind_error, except_map_error]
  | ok reg =>
    simp only [except_bind_ok, except_map_ok]

theorem processOne_scalar_ok (parsed : List (String × Tensor))
    (v0 v' : OutputVariable) (htype : v0.variable_type = "scalar")
    (h : processOne parsed v0 = .ok v') :
    ∃ t x, alist.lookup parsed v0.name = some t ∧ t.item = .ok x ∧
      v' = { v0 with value := .scalar x } := by
  unfold processOne at h
  rw [if_pos htype] at h
  cases hg : alist.getE parsed v0.name with
  | error e => rw [hg] at h; simp only [except_bind_error] at h; exact absurd h (by simp)
  | ok t =>
    rw [hg] at h
    simp only [except_bind_ok] at h
    cases hx : t.item with
    | error e => rw [hx] at h; simp only [except_bind_error] at h; exact absurd h (by simp)
    | ok x =>
      rw [hx] at h
      simp only [except_bind_ok] at h
      injection h with hh
      exact ⟨t, x, alist.getE_ok hg, hx, hh.symm⟩

end LumeModel

namespace LumeModel

theorem prepare_inputs_keeps_outputs (m : PyTorchModel)
    (inputs : List (String × InputValue))
    (r : PyTorchModel × List (String × Tensor))
    (h : _prepare_inputs m inputs = .ok r) :
    r.1.output_variables = m.output_variables := by
  unfold _prepare_inputs at h
  cases hmm : mapME (fun p => do
      let var ← resolveVar inputs p.1 p.2
      pure (p.1, var)) m.input_variables with
  | error e => rw [hmm] at h; simp only [except_bind_error] at h; exact absurd h (by simp)
  | ok reg =>
    rw [hmm] at h
    simp only [except_bind_ok] at h
    injection h with hh
    rw [← hh]

/-- C8: for the same input mapping and configuration, evaluating with
`output_format.type = "variable"` and with `"tensor"` yields numerically
consistent results: every scalar output variable's stored value equals the
`.item()` of the corresponding entry of the tensor-format mapping. -/
theorem variable_tensor_format_consistency (m : PyTorchModel)
    (inputs : List (String × InputValue)) (mv mt : PyTorchModel)
    (regv : List (String × OutputVariable)) (parsedt : List (String × Tensor))
    (hk : ∀ p ∈ m.output_variables, p.2.name = p.1)
    (hn : (m.output_variables.map Prod.fst).Nodup)
    (hv : evaluate { m with output_format := [("type", "variable")] } inputs
      = .ok (mv, .variables regv))
    (ht : evaluate { m with output_format := [("type", "tensor")] } inputs
      = .ok (mt, .tensors parsedt)) :
    ∀ n v, alist.lookup regv n = some v → v.variable_type = "scalar" →
      ∃ t x, alist.lookup parsedt n = some t ∧ t.item = .ok x ∧
        v.value = OutValue.scalar x := by
  obtain ⟨rv, arrv, parsedv, h1v, h2v, h3v, h4v⟩ := evaluate_ok_decomp _ _ _ hv
  obtain ⟨rt, arrt, parsedu, h1t, h2t, h3t, h4t⟩ := evaluate_ok_decomp _ _ _ ht
  rw [prepare_inputs_format] at h1v h1t
  cases h0 : _prepare_inputs m inputs with
  | error e =>
    rw [h0, except_map_error] at h1v
    exact absurd h1v (by simp)
  | ok r0 =>
    rw [h0] at h1v h1t
    simp only [except_map_ok] at h1v h1t
    injection h1v with hrv
    injection h1t with hrt
    subst hrv
    subst hrt
    rw [arrange_inputs_format] at h2v h2t
    rw [h2v] at h2t
    injection h2t with harr
    subst harr
    rw [pipeline_mid_format] at h3v h3t
    rw [h3v] at h3t
    injection h3t with hparsed
    subst hparsed
    obtain ⟨regV, hgoV, hmV, dispV⟩ := prepare_outputs_ok _ _ _ _ h4v
    obtain ⟨regT, hgoT, hmT, dispT⟩ := prepare_outputs_ok _ _ _ _ h4t
    rw [output_vars_format] at hgoV hgoT
    rw [hgoV] at hgoT
    injection hgoT with hreg
    subst hreg
    have hregv : regv = regV := by
      rcases dispV with ⟨hc, -⟩ | ⟨-, hout⟩ | ⟨-, hc, -⟩
      · rw [output_format_format] at hc
        simp [alist.lookup] at hc
      · simpa using hout
      · rw [output_format_format] at hc
        simp [alist.lookup] at hc
    have hparst : parsedt = parsedv := by
      rcases dispT with ⟨-, hout⟩ | ⟨hc, -⟩ | ⟨hc, -, -⟩
      · simpa using hout
      · rw [output_format_format] at hc
        simp [alist.lookup] at hc
      · rw [output_format_format] at hc
        simp [alist.lookup] at hc
    have hkeep := prepare_inputs_keeps_outputs m inputs r0 h0
    have hk0 : ∀ p ∈ r0.1.output_variables, p.2.name = p.1 := by
      rw [hkeep]; exact hk
    have hn0 : (r0.1.output_variables.map Prod.fst).Nodup := by
      rw [hkeep]; exact hn
    have hmap := prepLoop_ok_mapME parsedv r0.1.output_variables regV hk0 hn0 hgoV
    intro n v hlv htyv
    rw [hregv] at hlv
    obtain ⟨v0, hl0, hpo⟩ :=
      mapME_entry_lookup_rev parsedv r0.1.output_variables regV hmap n v hlv
    have hty0 : v0.variable_type = "scalar" := by
      rw [← (processOne_preserves parsedv v0 v hpo).2]
      exact htyv
    obtain ⟨t, x, hlt, hit, hveq⟩ := processOne_scalar_ok parsedv v0 v hty0 hpo
    have hname0 : v0.name = n := hk0 (n, v0) (alist.lookup_mem _ _ _ hl0)
    refine ⟨t, x, ?_, hit, ?_⟩
    · rw [hparst, ← hname0]
      exact hlt
    · rw [hveq]

end LumeModel

namespace LumeModel

/-- The adapter state after the variable-format run of the witness call. -/
def mV8 : PyTorchModel :=
  { mBase with
      output_format := [("type", "variable")]
      input_variables := [("x", { ivX with value := .scalar 3 })]
      output_variables := regWit }

/-- The adapter state after the tensor-format run of the witness call. -/
def mT8 : PyTorchModel :=
  { mBase with
      output_format := [("type", "tensor")]
      input_variables := [("x", { ivX with value := .scalar 3 })]
      output_variables := regWit }

theorem variable_tensor_format_consistency_witness :
    evaluate { mBase with output_format := [("type", "variable")] }
        [("x", InputValue.float 3)] = .ok (mV8, .variables regWit) ∧
    evaluate { mBase with output_format := [("type", "tensor")] }
        [("x", InputValue.float 3)] = .ok (mT8, .tensors parsedWit) ∧
    ∃ t x, alist.lookup parsedWit "y" = some t ∧ t.item = .ok x ∧
      OutputVariable.value { ovY with value := OutValue.scalar 3 } =
        OutValue.scalar x :=
  ⟨rfl, rfl,
   variable_tensor_format_consistency mBase [("x", InputValue.float 3)] mV8 mT8
     regWit parsedWit (by decide) (by decide) rfl rfl "y"
     { ovY with value := OutValue.scalar 3 } rfl rfl⟩

end LumeModel
